import Mathlib

/-!
Verification development for the ICFP 2024 contest repository
(`OMG-ICFP-FTW/icfp2024`), centred on the exploratory interpreters for the
token-based lambda-calculus language under `src/problems/language_test/`.

Python strings are modelled as `List Char`; Python `int` as `Int`
(arbitrary precision, as in CPython); Python dicts keyed by strings as
association lists with unique keys maintained by an overwrite-or-append
update.  Python functions that mutate a tree in place are rendered as pure
functions from the old tree to the new tree; where object identity itself
matters (`Node.replace`), an explicit object store is used instead.
-/

namespace ICFP

/-- A Python string (token, body, variable name, ...) as a list of characters. -/
abbrev Tok := List Char

/-! ## Codec (`c2b94` / `b942c`, identical in `again.py`, `thre.py`, `alang.py`;
`tworee.py` has a variant of `b942c` without the zero case, embedded below as
`b942cTwo`). -/

/-- `c2b94(s)` from `again.py`: fold `value = value * 94 + (ord(c) - 33)` over
the characters.  Python subtraction can go below zero, hence `Int`. -/
def c2b94 (s : Tok) : Int :=
  s.foldl (fun value c => value * 94 + ((c.toNat : Int) - 33)) 0

/-- The `while value:` loop of `b942c`: repeatedly `divmod(value, 94)`,
prepending `chr(r + 33)`; returns `""` when the value is `0`.  The fuel
argument only bounds the recursion depth (any fuel at least the starting
value gives the loop's result, see `b942cGo_spec`). -/
def b942cGo (fuel : Nat) (value : Nat) : Tok :=
  match fuel with
  | 0 => []
  | f + 1 =>
    if value = 0 then []
    else b942cGo f (value / 94) ++ [Char.ofNat (value % 94 + 33)]

/-- `b942c(value)` from `again.py`: asserts `value >= 0` (hence the `Nat`
domain), returns `"!"` for `0`, else the base-94 digits, most significant
first. -/
def b942c (value : Nat) : Tok :=
  if value = 0 then ['!'] else b942cGo value value

/-- `b942c(value)` from `tworee.py` (lines 118-123): same loop but with no
special case for `0`, so `b942cTwo 0 = ""`. -/
def b942cTwo (value : Nat) : Tok :=
  b942cGo value value

/-- The 94-character human-readable alphabet `str_reference` (identical in
`again.py`, `thre.py`, `alang.py`). -/
def strReference : Tok :=
  ("abcdefghijklmnopqrstuvwxyzABCDEFGHIJKLMNOPQRSTUVWXYZ0123456789!\"#$%&'()*+,-./:;<=>?@[\\]^_`|~ \n").toList

/-- `decode`: each body character with code `33 + i` maps to `str_reference[i]`;
characters outside the table are left unchanged (`str.translate` semantics). -/
def decodeChar (c : Char) : Char :=
  match strReference.drop (c.toNat - 33) with
  | d :: _ => if 33 ≤ c.toNat ∧ c.toNat ≤ 126 then d else c
  | [] => c

/-- `decode(s)` from `again.py`: translate every character through the table. -/
def decodeStr (s : Tok) : Tok :=
  s.map decodeChar

/-! ## Integer division (`truncdiv` / `truncmod`)

The source computes `truncdiv(a, b)` as `math.trunc(a / b)`, i.e. it first
forms the quotient as an IEEE-754 double.  For operands small enough that the
double rounding is exact this equals truncation toward zero, embedded here as
`Int.tdiv`; the rounding model `round53` below captures where the two
disagree. -/

/-- Exact truncation-toward-zero division: the value `math.trunc(a / b)` has
whenever the IEEE-754 quotient `a / b` is exact (see `round53` for the
divergence on large operands). -/
def truncdiv (a b : Int) : Int :=
  Int.tdiv a b

/-- `truncmod(a, b) = a - b * truncdiv(a, b)` from `again.py`/`thre.py`. -/
def truncmod (a b : Int) : Int :=
  a - b * truncdiv a b

/-- Modelled from the host semantics the source calls into: CPython converts
the exact rational `a / b` to the nearest IEEE-754 double (round to nearest,
ties to even).  For an integer value `n` this is rounding `n` to 53
significant bits, which is what `round53` computes; `math.trunc` then reads
the integer back off.  So for `b = 1` the source's `truncdiv(a, 1)` equals
`round53 a`, not `a`. -/
def log2Aux (fuel n : Nat) : Nat :=
  match fuel with
  | 0 => 0
  | f + 1 => if n ≤ 1 then 0 else log2Aux f (n / 2) + 1

/-- Floor of the base-2 logarithm (fuel-based so that it evaluates in the
kernel). -/
def log2F (n : Nat) : Nat :=
  log2Aux n n

def round53 (n : Nat) : Nat :=
  if n < 2 ^ 53 then n
  else
    let e := log2F n - 52
    let q := n / 2 ^ e
    let r := n % 2 ^ e
    let half := 2 ^ (e - 1)
    let q2 := if half < r ∨ (r = half ∧ q % 2 = 1) then q + 1 else q
    q2 * 2 ^ e

/-! ## Decimal rendering (model of Python `str(...)` on a non-negative int),
used for fresh variable names `'v' + str(random.randint(...))`. -/

def decReprAux (fuel n : Nat) : Tok :=
  match fuel with
  | 0 => []
  | f + 1 =>
    if n < 10 then [Char.ofNat (48 + n)]
    else decReprAux f (n / 10) ++ [Char.ofNat (48 + n % 10)]

/-- Decimal digits of `n`, most significant first; model of `str(n)` for a
non-negative Python int (fuel-based so that it evaluates in the kernel). -/
def decRepr (n : Nat) : Tok :=
  decReprAux (n + 1) n

/-! ## Term trees

`Node` from `again.py`/`thre.py`: a token, an optional list of children and
an optional substitution dict.  `None` and the empty collection behave
identically in every use site (`if self.children:`, `if self.substitutions:`),
so both are modelled as `[]`.  The `parent` back-pointer exists only to walk
the ancestor chain in `lookup`; the embedding passes that chain explicitly as
an environment (`Env`) instead. -/

/-- A term-tree node: token, children, substitution dict. -/
inductive Node where
  | mk (token : Tok) (children : List Node) (subs : List (Tok × Node))

namespace Node

/-- `node.token`. -/
def token : Node → Tok
  | mk t _ _ => t

/-- `node.children`. -/
def children : Node → List Node
  | mk _ ch _ => ch

/-- `node.substitutions`. -/
def subs : Node → List (Tok × Node)
  | mk _ _ sb => sb

end Node

/-- The substitution dictionaries of the ancestors of a node, innermost
first: the chain `lookup` walks via `parent` pointers. -/
abbrev Env := List (List (Tok × Node))

/-- Python dict lookup on the association-list model. -/
def dlookup (d : List (Tok × Node)) (k : Tok) : Option Node :=
  match d with
  | [] => none
  | (k2, v) :: rest => if k2 = k then some v else dlookup rest k

/-- Python dict assignment `d[k] = v`: overwrite an existing key in place,
else append. -/
def dupd (d : List (Tok × Node)) (k : Tok) (v : Node) : List (Tok × Node) :=
  match d with
  | [] => [(k, v)]
  | (k2, v2) :: rest => if k2 = k then (k2, v) :: rest else (k2, v2) :: dupd rest k v

/-- `self.substitutions.update(other)`: updating an empty (or `None`) dict
copies the other dict; otherwise each entry overwrites or appends. -/
def dmergeInto (self other : List (Tok × Node)) : List (Tok × Node) :=
  match self with
  | [] => other
  | _ => other.foldl (fun d p => dupd d p.1 p.2) self

/-- `node.lookup(v)` from `again.py`/`thre.py`: search the node's own dict,
then each ancestor's dict outward. -/
def envLookup (chain : Env) (k : Tok) : Option Node :=
  match chain with
  | [] => none
  | d :: rest =>
    match dlookup d k with
    | some v => some v
    | none => envLookup rest k

/-- `Node.supdate(nodes, new_var, replacement)` (identical in `again.py` and
`thre.py`): merge each node's dict into `self`'s in order, then set
`self.substitutions[new_var] = replacement`.  Rendered as the resulting
dict. -/
def supdate (self : List (Tok × Node)) (nodes : List (List (Tok × Node)))
    (newVar : Tok) (replacement : Node) : List (Tok × Node) :=
  dupd (nodes.foldl dmergeInto self) newVar replacement

/-! ## String helpers for the Python idioms in `step` -/

/-- Whether `pat` is an initial segment of `s`. -/
def leadEq : Tok → Tok → Bool
  | [], _ => true
  | _ :: _, [] => false
  | a :: p, b :: s => a == b && leadEq p s

/-- Python's `sub in s` on strings: substring test.  Note `"" in s` is
`True` for every `s`, which matters in `step`'s `node.body in '$'` chain. -/
def substrB (pat s : Tok) : Bool :=
  leadEq pat s ||
    match s with
    | [] => false
    | _ :: t => substrB pat t

/-- Python's `c in s` for a single character (as used on `node.indicator`). -/
def charIn (c : Char) (s : Tok) : Bool :=
  s.contains c

/-- Python `y[:x]` for `x` a possibly negative int. -/
def pySliceTake (x : Int) (y : Tok) : Tok :=
  if 0 ≤ x then y.take x.toNat
  else y.take (y.length - (-x).toNat)

/-- Python `y[x:]` for `x` a possibly negative int. -/
def pySliceDrop (x : Int) (y : Tok) : Tok :=
  if 0 ≤ x then y.drop x.toNat
  else y.drop (y.length - (-x).toNat)

/-! ## Parsing (`parse`, identical in `again.py` lines 268-283 and `thre.py`
lines 226-241)

The Python function pops tokens off the front of the caller's list in place
and returns only the node; the embedding returns the node together with the
list the caller is left holding.  Failed `assert`s and the
`raise ValueError("Unknown indicator ...")` are rendered as `none`.  The
fuel argument only bounds the recursion depth of the descent (`parse`
consumes at least one token per call, so any fuel above the list length is
enough). -/
def parseF (fuel : Nat) (tokens : List Tok) : Option (Node × List Tok) :=
  match fuel with
  | 0 => none
  | f + 1 =>
    match tokens with
    | [] => none
    | tok :: rest =>
      match tok with
      | [] => none
      | c :: _ =>
        if charIn c ['T', 'F', 'v', 'I', 'S'] then
          some (Node.mk tok [] [], rest)
        else if charIn c ['U', 'L'] then
          match parseF f rest with
          | some (n1, r1) => some (Node.mk tok [n1] [], r1)
          | none => none
        else if c = 'B' then
          match parseF f rest with
          | some (n1, r1) =>
            match parseF f r1 with
            | some (n2, r2) => some (Node.mk tok [n1, n2] [], r2)
            | none => none
          | none => none
        else if c = '?' then
          match parseF f rest with
          | some (n1, r1) =>
            match parseF f r1 with
            | some (n2, r2) =>
              match parseF f r2 with
              | some (n3, r3) => some (Node.mk tok [n1, n2, n3] [], r3)
              | none => none
            | none => none
          | none => none
        else none

/-- `parse(tokens)` with enough fuel for any input. -/
def parse (tokens : List Tok) : Option (Node × List Tok) :=
  parseF (tokens.length + 1) tokens

mutual

/-- The tokens of a term, in the order `parse` consumes them (the preorder
walk of `Node.walk` / `Node.dump` in `alang.py`). -/
def tokensOf : Node → List Tok
  | .mk t ch _ => t :: tokensOfList ch

def tokensOfList : List Node → List Tok
  | [] => []
  | n :: ns => tokensOf n ++ tokensOfList ns

end

/-! ## Value views (`isint` / `asint` / `isbool` / `asbool` / `isstr` /
`asstr` / `fromint` from `again.py` lines 107-149)

`asint` and `asbool` raise `ValueError` on a non-value, rendered as `none`
here (`step` only calls them either behind the corresponding guard or in
positions where the exception aborts the evaluation, which the step machine
below models separately).  A `U-`/`U!` node whose children list is empty
would make Python crash on `self.children[0]`; such nodes are never built by
`parse` or `step`, and the embedding returns `false`/`none` for them. -/

mutual

/-- `node.isint()`. -/
def isint : Node → Bool
  | .mk t ch _ =>
    match t with
    | 'I' :: _ => true
    | ['U', '-'] =>
      match ch with
      | c :: _ => isint c
      | [] => false
    | _ => false

end

mutual

/-- `node.asint()`. -/
def asint : Node → Option Int
  | .mk t ch _ =>
    match t with
    | 'I' :: body => some (c2b94 body)
    | ['U', '-'] =>
      match ch with
      | c :: _ =>
        match asint c with
        | some v => some (-v)
        | none => none
      | [] => none
    | _ => none

end

mutual

/-- `node.isbool()`. -/
def isbool : Node → Bool
  | .mk t ch _ =>
    match t with
    | ['T'] => true
    | ['F'] => true
    | ['U', '!'] =>
      match ch with
      | c :: _ => isbool c
      | [] => false
    | _ => false

end

mutual

/-- `node.asbool()`. -/
def asbool : Node → Option Bool
  | .mk t ch _ =>
    match t with
    | ['T'] => some true
    | ['F'] => some false
    | ['U', '!'] =>
      match ch with
      | c :: _ =>
        match asbool c with
        | some v => some (!v)
        | none => none
      | [] => none
    | _ => none

end

/-- `node.isstr()`. -/
def isstr (n : Node) : Bool :=
  match n.token with
  | 'S' :: _ => true
  | _ => false

/-- `node.asstr()` (only called behind the `isstr` guard): the body. -/
def asstr (n : Node) : Tok :=
  n.token.drop 1

/-- `Node.fromint(value)`: `I`-token for a non-negative value, `U-` wrapper
otherwise. -/
def fromint (value : Int) : Node :=
  if 0 ≤ value then Node.mk ('I' :: b942c value.toNat) [] []
  else Node.mk ['U', '-'] [Node.mk ('I' :: b942c (-value).toNat) [] []] []

/-! ## Renaming (`Node.rename(a, b)`, identical in `again.py` lines 180-193
and `thre.py` lines 199-212)

The function asserts that `a` and `b` start with `'v'`, have length at least
2 and differ; the step machines below check those conditions before calling
(a failed assert is a raised `AssertionError` there).  A variable node whose
token equals `a` is renamed; a lambda that binds `a` stops the walk (its
children and dict are left untouched); otherwise the walk recurses into the
children and into the values (not the keys) of the substitution dict. -/

mutual

def rename (a b : Tok) : Node → Node
  | .mk t ch sb =>
    let t2 := match t with
      | 'v' :: _ => if t = a then b else t
      | _ => t
    match t2 with
    | 'L' :: body =>
      if body = a.drop 1 then Node.mk t2 ch sb
      else Node.mk t2 (renameList a b ch) (renameSubs a b sb)
    | _ => Node.mk t2 (renameList a b ch) (renameSubs a b sb)

def renameList (a b : Tok) : List Node → List Node
  | [] => []
  | n :: ns => rename a b n :: renameList a b ns

def renameSubs (a b : Tok) : List (Tok × Node) → List (Tok × Node)
  | [] => []
  | (k, v) :: rest => (k, rename a b v) :: renameSubs a b rest

end

/-! ## The `again.py` step machine (`step`, lines 286-402, and `evaluate`,
lines 405-408)

`step` mutates the tree in place and returns `True` when it changed
something; the embedding returns the new tree instead.  `node.replace(x)`
overwrites the node's token, children and substitution dict with `x`'s, so
its functional rendering is "the subtree becomes `x`".  The random fresh
name `'v' + str(random.randint(1_000_000_000, 9_999_999_999))` is rendered
by an oracle `s : Nat → Nat` of successive samples together with the index
of the next sample to draw; `random.randint` is inclusive on both ends, so a
faithful oracle takes values in `[1000000000, 9999999999]` (nothing stops
two samples from being equal).  Raised Python exceptions are `StepRes.err`. -/

/-- The Python exceptions the step machines can raise.  `stepLimitExceeded`
is the error kind the specification claims for exhausting the 10,000,000
beta-reduction budget; it is listed so the claim can be stated, and the
machines below never produce it. -/
inductive PyErr where
  | valueErr
  | notImplErr
  | assertErr
  | typeErr
  | zeroDivErr
  | nameErr
  | indexErr
  | stepLimitExceeded
deriving DecidableEq

/-- Result of one `step` call: the replaced subtree plus the next oracle
index and whether the fired rule was a beta reduction, or "no redex", or a
raised exception. -/
inductive StepRes where
  | stepped (n : Node) (idx : Nat) (beta : Bool)
  | noStep
  | err (e : PyErr)

/-- Result of the `for child in node.children: if step(child): ...` loop. -/
inductive KidsRes where
  | stepped (ns : List Node) (idx : Nat) (beta : Bool)
  | noStep
  | err (e : PyErr)

/-- `node.indicator == c` (Python raises IndexError on an empty token; the
callers below check the token first). -/
def headIs (n : Node) (c : Char) : Bool :=
  n.token.head? == some c

/-- `node.body` as used inside `step`. -/
def bodyOf (n : Node) : Tok :=
  n.token.drop 1

/-- The dispatch of `again.py`'s `step` once the children-first walk found
no redex below the node: everything from `if node.indicator in 'TFISL'`
down.  It performs no recursive `step` call, so it lives outside the mutual
recursion. -/
def stepAgainRules (s : Nat → Nat) (i : Nat) (env : Env)
    (tok : Tok) (ch : List Node) (sb : List (Tok × Node)) : StepRes :=
  match tok with
  | [] => .err .indexErr
  | c :: body =>
        -- Values not the root of a replacement pattern
        if charIn c ['T', 'F', 'I', 'S', 'L'] then .noStep
        -- Variable replacement
        else if c = 'v' then
          match envLookup (sb :: env) tok with
          | some v => .stepped (.mk v.token v.children v.subs) i false
          | none => .noStep
        -- Unary
        else if c = 'U' then
          match ch with
          | [child] =>
            -- String to integer
            if body = ['#'] && isstr child then
              .stepped (.mk ('I' :: bodyOf child) [] []) i false
            -- Integer to string
            else if body = ['$'] && headIs child 'I' then
              .stepped (.mk ('S' :: bodyOf child) [] []) i false
            else .noStep
          | [] => .err .typeErr
          | _ => .err .valueErr
        -- Binary
        else if c = 'B' then
          match ch with
          | [left, right] =>
            -- Application
            if substrB body ['$'] then
              match left.token with
              | [] => .err .indexErr
              | 'L' :: lbody =>
                match left.children with
                | [expression] =>
                  let oldVar := 'v' :: lbody
                  let newVar := 'v' :: decRepr (s i)
                  -- rename's asserts: len(old_var) > 1 and old_var != new_var
                  if lbody = [] ∨ oldVar = newVar then .err .assertErr
                  else
                    let expr2 := rename oldVar newVar expression
                    .stepped
                      (.mk expr2.token expr2.children
                        (supdate expr2.subs [left.subs, sb] newVar right))
                      (i + 1) true
                | [] => .err .typeErr
                | _ => .err .valueErr
              | _ => .noStep
            -- Arithmetic
            else if substrB body ['+', '-', '*', '/', '%'] then
              if !(isint left) || !(isint right) then .noStep
              else
                match asint left, asint right with
                | some a, some b =>
                  match body with
                  | ['+'] => .stepped (fromint (a + b)) i false
                  | ['-'] => .stepped (fromint (a - b)) i false
                  | ['/'] =>
                    if b = 0 then .err .zeroDivErr
                    else .stepped (fromint (truncdiv a b)) i false
                  | ['%'] =>
                    if b = 0 then .err .zeroDivErr
                    else .stepped (fromint (truncmod a b)) i false
                  | ['*'] => .stepped (fromint (a * b)) i false
                  | _ => .err .notImplErr
                | _, _ => .err .valueErr
            -- Boolean
            else if substrB body ['&', '|'] then
              match asbool left, asbool right with
              | some a, some b =>
                match body with
                | ['&'] => .stepped (.mk [if a && b then 'T' else 'F'] [] []) i false
                | ['|'] => .stepped (.mk [if a || b then 'T' else 'F'] [] []) i false
                | _ => .err .notImplErr
              | _, _ => .err .valueErr
            -- Comparison
            else if substrB body ['<', '>', '='] then
              -- Equality
              if substrB body ['='] then
                if isbool left && isbool right then
                  match asbool left, asbool right with
                  | some a, some b => .stepped (.mk [if a = b then 'T' else 'F'] [] []) i false
                  | _, _ => .err .valueErr
                else if isint left && isint right then
                  match asint left, asint right with
                  | some a, some b => .stepped (.mk [if a = b then 'T' else 'F'] [] []) i false
                  | _, _ => .err .valueErr
                else if isstr left && isstr right then
                  .stepped (.mk [if asstr left = asstr right then 'T' else 'F'] [] []) i false
                else .noStep
              -- Inequality
              else if substrB body ['<', '>'] then
                if isint left && isint right then
                  match asint left, asint right with
                  | some a, some b =>
                    match body with
                    | ['<'] => .stepped (.mk [if a < b then 'T' else 'F'] [] []) i false
                    | ['>'] => .stepped (.mk [if a > b then 'T' else 'F'] [] []) i false
                    | _ => .err .notImplErr
                  | _, _ => .err .valueErr
                else .noStep
              else .err .notImplErr
            -- String concatenation
            else if substrB body ['.'] then
              if isstr left && isstr right then
                .stepped (.mk ('S' :: (bodyOf left ++ bodyOf right)) [] []) i false
              else .noStep
            -- String slicing (no `return False` in the source: non-value
            -- operands fall through to the NotImplementedError below)
            else if substrB body ['T', 'D'] then
              if isint left && isstr right then
                match asint left with
                | some x =>
                  let y := asstr right
                  .stepped
                    (.mk ('S' :: (if body = ['T'] then pySliceTake x y else pySliceDrop x y)) [] [])
                    i false
                | none => .err .valueErr
              else .err .notImplErr
            else .err .notImplErr
          | [] => .err .typeErr
          | _ => .err .valueErr
        -- Conditional
        else if c = '?' then
          match ch with
          | [condition, tv, fv] =>
            if isbool condition then
              match asbool condition with
              | some cb => .stepped (if cb then tv else fv) i false
              | none => .err .valueErr
            else .noStep
          | [] => .err .typeErr
          | _ => .err .valueErr
        else .err .notImplErr

mutual

/-- One call of `again.py`'s `step` on a node whose ancestor substitution
dicts are `env` (outermost last); `s`/`i` is the random oracle and its next
index: children first, then the operator dispatch. -/
def stepAgainNode (s : Nat → Nat) (i : Nat) (env : Env) : Node → StepRes
  | .mk tok ch sb =>
    match stepAgainKids s i (sb :: env) ch with
    | .stepped ch2 i2 b => .stepped (.mk tok ch2 sb) i2 b
    | .err e => .err e
    | .noStep => stepAgainRules s i env tok ch sb

def stepAgainKids (s : Nat → Nat) (i : Nat) (env : Env) : List Node → KidsRes
  | [] => .noStep
  | n :: ns =>
    match stepAgainNode s i env n with
    | .stepped n2 i2 b => .stepped (n2 :: ns) i2 b
    | .err e => .err e
    | .noStep =>
      match stepAgainKids s i env ns with
      | .stepped ns2 i2 b => .stepped (n :: ns2) i2 b
      | .noStep => .noStep
      | .err e => .err e

end

/-- Result of running `evaluate`: the normal form, or fuel ran out (the
Python loop is still running), or a raised exception. -/
inductive EvalRes where
  | done (n : Node)
  | timeout
  | failed (e : PyErr)

/-- `evaluate(node)` from `again.py` lines 405-408: `while step(node): pass;
return node` — rendered with fuel (the Python loop has no bound of its own),
also returning how many of the performed steps were beta reductions. -/
def evalAgain (s : Nat → Nat) : Nat → Nat → Node → EvalRes × Nat
  | 0, _, _ => (.timeout, 0)
  | fuel + 1, i, t =>
    match stepAgainNode s i [] t with
    | .noStep => (.done t, 0)
    | .err e => (.failed e, 0)
    | .stepped t2 i2 b =>
      let r := evalAgain s fuel i2 t2
      (r.1, r.2 + if b then 1 else 0)

/-! ## The `thre.py` step machine (`step`, lines 244-451)

Unlike `again.py`, `thre.py` does not walk all children first: each operator
case forces exactly the children its strictness requires.  In particular the
application case forces only `node.children[0]` and then substitutes
`node.children[1]` unevaluated, and the conditional forces only the
condition.  Python exceptions (failed `assert`s, `TypeError` on indexing
`None`, `IndexError`, `NameError` on the possibly-unbound `x`/`y` of the
comparison case, `ValueError` from `asint`) are `StepRes.err`. -/

mutual

/-- One call of `thre.py`'s `step`. -/
def stepThreNode (s : Nat → Nat) (i : Nat) (env : Env) : Node → StepRes
  | .mk tok ch sb =>
    match tok with
    | [] => .err .indexErr
    | c :: body =>
      -- Values not the root of a replacement pattern
      if charIn c ['T', 'F', 'I', 'S', 'L'] then .noStep
      -- Variable replacement
      else if c = 'v' then
        match envLookup (sb :: env) tok with
        | some v => .stepped (.mk v.token v.children v.subs) i false
        | none => .noStep
      -- Unary
      else if c = 'U' then
        match stepThreFst s i (sb :: env) ch with
        | .stepped ch2 i2 b => .stepped (.mk tok ch2 sb) i2 b
        | .err e => .err e
        | .noStep =>
          match ch with
          | [] => .err .typeErr
          | child :: _ =>
            -- Negation: `U- U- x` cancels out; but the source then runs
            -- `node.token = inner`, storing a Node object in the token
            -- slot (a type confusion any later use crashes on).  Rendered
            -- as a type error.
            if substrB body ['-'] then
              if child.token = ['U', '-'] then .err .typeErr
              else .noStep
            -- Not
            else if substrB body ['!'] then
              if child.token = ['T'] ∨ child.token = ['F'] then
                .stepped (.mk (if child.token = ['T'] then ['F'] else ['T']) [] []) i false
              else .noStep
            else .err .valueErr
      -- Binary
      else if c = 'B' then
        -- Application: only the left operand is forced
        if substrB body ['$'] then
          match stepThreFst s i (sb :: env) ch with
          | .stepped ch2 i2 b => .stepped (.mk tok ch2 sb) i2 b
          | .err e => .err e
          | .noStep =>
            match ch with
            | [] => .err .typeErr
            | lam :: rest =>
              match lam.children with
              | [] => .err .typeErr
              | expression :: _ =>
                match rest with
                | [] => .err .indexErr
                | replacement :: _ =>
                  let oldVar := 'v' :: bodyOf lam
                  let newVar := 'v' :: decRepr (s i)
                  -- rename's asserts: len(old_var) > 1 and old_var != new_var
                  if bodyOf lam = [] ∨ oldVar = newVar then .err .assertErr
                  else
                    let expr2 := rename oldVar newVar expression
                    .stepped
                      (.mk expr2.token expr2.children
                        (supdate sb [lam.subs, expr2.subs] newVar replacement))
                      (i + 1) true
        -- Arithmetic: both operands forced, then `asint` with no guard
        else if substrB body ['+', '-', '*', '/', '%'] then
          match stepThreBoth s i (sb :: env) ch with
          | .stepped ch2 i2 b => .stepped (.mk tok ch2 sb) i2 b
          | .err e => .err e
          | .noStep =>
            match ch with
            | left :: right :: _ =>
              match asint left, asint right with
              | some a, some b =>
                match body with
                | ['+'] => .stepped (fromint (a + b)) i false
                | ['-'] => .stepped (fromint (a - b)) i false
                | ['/'] =>
                  if b = 0 then .err .zeroDivErr
                  else .stepped (fromint (truncdiv a b)) i false
                | ['%'] =>
                  if b = 0 then .err .zeroDivErr
                  else .stepped (fromint (truncmod a b)) i false
                | ['*'] => .stepped (fromint (a * b)) i false
                | _ => .err .notImplErr
              | _, _ => .err .valueErr
            | _ => .err .typeErr
        -- Boolean, with short-circuit-style simplification on literals
        else if substrB body ['&', '|'] then
          match stepThreBoth s i (sb :: env) ch with
          | .stepped ch2 i2 b => .stepped (.mk tok ch2 sb) i2 b
          | .err e => .err e
          | .noStep =>
            match ch with
            | left :: right :: _ =>
              let result : Option Node :=
                if body = ['&'] then
                  if left.token = ['F'] ∨ right.token = ['F'] then some (.mk ['F'] [] [])
                  else if left.token = ['T'] then some right
                  else if right.token = ['T'] then some left
                  else none
                else
                  if left.token = ['T'] ∨ right.token = ['T'] then some (.mk ['T'] [] [])
                  else if left.token = ['F'] then some right
                  else if right.token = ['F'] then some left
                  else none
              -- `node.body == '&'` / `'|'`; any other substring of `'&|'`
              -- raises ValueError
              if body = ['&'] ∨ body = ['|'] then
                match result with
                | some r => .stepped (.mk r.token r.children (dmergeInto sb r.subs)) i false
                | none => .noStep
              else .err .valueErr
            | _ => .err .typeErr
        -- Comparison
        else if substrB body ['<', '>', '='] then
          match stepThreBoth s i (sb :: env) ch with
          | .stepped ch2 i2 b => .stepped (.mk tok ch2 sb) i2 b
          | .err e => .err e
          | .noStep =>
            match ch with
            | left :: right :: _ =>
              -- Equality
              if substrB body ['='] then
                if left.token = ['T'] ∨ left.token = ['F'] then
                  if right.token = ['T'] ∨ right.token = ['F'] then
                    .stepped (.mk (if left.token = right.token then ['T'] else ['F']) [] []) i false
                  else .err .assertErr
                -- Variables: `result = True` on equal tokens is dead code,
                -- the source returns False either way
                else if headIs left 'v' ∨ headIs right 'v' then .noStep
                else if headIs left 'I' ∨ headIs left 'S' then
                  if left.token.head? = right.token.head? then
                    .stepped (.mk (if left.token = right.token then ['T'] else ['F']) [] []) i false
                  else .err .assertErr
                -- Negative numbers: strip both `U-` wrappers and re-step
                else if left.token = ['U', '-'] ∧ right.token = ['U', '-'] then
                  match left.children, right.children with
                  | lc :: _, rc :: _ =>
                    .stepped
                      (.mk tok
                        [.mk lc.token lc.children (dmergeInto lc.subs left.subs),
                         .mk rc.token rc.children (dmergeInto rc.subs right.subs)] sb)
                      i false
                  | _, _ => .err .typeErr
                else .err .valueErr
              -- Inequality: `x` / `y` are unbound (NameError) when an
              -- operand is neither an `I` literal nor a `U-` wrapper
              else if substrB body ['<', '>'] then
                let xv : Except PyErr Int :=
                  if headIs left 'I' then .ok (c2b94 (bodyOf left))
                  else if left.token = ['U', '-'] then
                    match left.children with
                    | lc :: _ => if headIs lc 'I' then .ok (-(c2b94 (bodyOf lc))) else .error .assertErr
                    | [] => .error .typeErr
                  else .error .nameErr
                let yv : Except PyErr Int :=
                  if headIs right 'I' then .ok (c2b94 (bodyOf right))
                  else if right.token = ['U', '-'] then
                    match right.children with
                    | rc :: _ => .ok (-(c2b94 (bodyOf rc)))
                    | [] => .error .typeErr
                  else .error .nameErr
                match xv, yv with
                | .ok x, .ok y =>
                  .stepped
                    (.mk (if (if body = ['<'] then x < y else x > y) then ['T'] else ['F']) [] [])
                    i false
                | .error e, _ => .err e
                | _, .error e => .err e
              else .err .valueErr
            | _ => .err .typeErr
        -- String concatenation
        else if substrB body ['.'] then
          match stepThreBoth s i (sb :: env) ch with
          | .stepped ch2 i2 b => .stepped (.mk tok ch2 sb) i2 b
          | .err e => .err e
          | .noStep =>
            match ch with
            | left :: right :: _ =>
              if headIs left 'S' then
                if headIs right 'S' then
                  .stepped (.mk ('S' :: (bodyOf left ++ bodyOf right)) [] []) i false
                else .err .assertErr
              else .err .assertErr
            | _ => .err .typeErr
        -- String slicing
        else if substrB body ['T', 'D'] then
          match stepThreBoth s i (sb :: env) ch with
          | .stepped ch2 i2 b => .stepped (.mk tok ch2 sb) i2 b
          | .err e => .err e
          | .noStep =>
            match ch with
            | left :: right :: _ =>
              if headIs left 'I' then
                if headIs right 'S' then
                  let x : Int := c2b94 (bodyOf left)
                  let y := bodyOf right
                  .stepped
                    (.mk ('S' :: (if body = ['T'] then pySliceTake x y else pySliceDrop x y)) [] [])
                    i false
                else .err .assertErr
              else .err .assertErr
            | _ => .err .typeErr
        else .err .notImplErr
      -- Conditional: only the condition is forced
      else if c = '?' then
        match stepThreFst s i (sb :: env) ch with
        | .stepped ch2 i2 b => .stepped (.mk tok ch2 sb) i2 b
        | .err e => .err e
        | .noStep =>
          match ch with
          | condition :: rest =>
            if condition.token = ['T'] ∨ condition.token = ['F'] then
              match (if condition.token = ['T'] then rest.head? else (rest.drop 1).head?) with
              | some value =>
                .stepped (.mk value.token value.children (dmergeInto sb value.subs)) i false
              | none => .err .indexErr
            else .err .assertErr
          | [] => .err .typeErr
      else .err .notImplErr

/-- `if step(node.children[0]): return True` (a `None` children list makes
Python crash on the indexing). -/
def stepThreFst (s : Nat → Nat) (i : Nat) (env : Env) : List Node → KidsRes
  | [] => .err .typeErr
  | n :: ns =>
    match stepThreNode s i env n with
    | .stepped n2 i2 b => .stepped (n2 :: ns) i2 b
    | .noStep => .noStep
    | .err e => .err e

/-- `if step(node.children[0]): return True` followed by
`if step(node.children[1]): return True`. -/
def stepThreBoth (s : Nat → Nat) (i : Nat) (env : Env) : List Node → KidsRes
  | [] => .err .typeErr
  | n :: ns =>
    match stepThreNode s i env n with
    | .stepped n2 i2 b => .stepped (n2 :: ns) i2 b
    | .err e => .err e
    | .noStep =>
      match ns with
      | [] => .err .indexErr
      | m :: ms =>
        match stepThreNode s i env m with
        | .stepped m2 i2 b => .stepped (n :: m2 :: ms) i2 b
        | .noStep => .noStep
        | .err e => .err e

end

/-- Iterating `thre.py`'s `step` to a normal form (the source drives it with
a bounded loop; fuel plays that role here). -/
def evalThre (s : Nat → Nat) : Nat → Nat → Node → EvalRes
  | 0, _, _ => .timeout
  | fuel + 1, i, t =>
    match stepThreNode s i [] t with
    | .noStep => .done t
    | .err e => .failed e
    | .stepped t2 i2 _ => evalThre s fuel i2 t2

/-! ## Object-store model of `Node.replace`

`Node.replace(self, node, parent=None)` (`again.py` lines 195-205, `thre.py`
lines 214-218) mutates `self` in place: it overwrites `self`'s substitution
dict, children list and token with `node`'s, re-points the parent fields of
the (now shared) children at `self`, and optionally installs a new parent.
To state what happens to the object the caller already holds, nodes are
modelled as cells in an explicit store addressed by ids (Python object
identities). -/

/-- A `Node` object as stored on the Python heap: fields hold ids of other
objects. -/
structure Cell where
  token : Tok
  children : List Nat
  subs : List (Tok × Nat)
  parent : Option Nat
deriving DecidableEq

/-- The heap: an association of object ids to cells. -/
abbrev Store := List (Nat × Cell)

/-- Dereference an object id. -/
def getCell (st : Store) (i : Nat) : Option Cell :=
  match st with
  | [] => none
  | (j, c) :: rest => if j = i then some c else getCell rest i

/-- Overwrite the cell at an id (no effect on an absent id). -/
def setCell (st : Store) (i : Nat) (c : Cell) : Store :=
  match st with
  | [] => []
  | (j, c2) :: rest => if j = i then (j, c) :: rest else (j, c2) :: setCell rest i c

/-- `obj.parent = p`. -/
def setParent (st : Store) (i : Nat) (p : Nat) : Store :=
  match getCell st i with
  | some c => setCell st i { c with parent := some p }
  | none => st

/-- `self.replace(node, parent)` on the store: returns the new heap (`none`
if either id is dangling, which cannot happen for live objects). -/
def replaceStore (st : Store) (selfId nodeId : Nat) (parentArg : Option Nat) :
    Option Store :=
  match getCell st selfId, getCell st nodeId with
  | some selfC, some nodeC =>
    -- self.substitutions / self.children / self.token come from node
    let st2 := setCell st selfId
      { token := nodeC.token, children := nodeC.children, subs := nodeC.subs,
        parent := selfC.parent }
    -- for child in self.children: child.parent = self
    let st3 := nodeC.children.foldl (fun acc cid => setParent acc cid selfId) st2
    -- if parent: self.parent = parent
    match parentArg with
    | some p => some (setParent st3 selfId p)
    | none => some st3
  | _, _ => none

/-! # Theorems -/

/-! ## Shared concrete terms and oracles -/

/-- An admissible random oracle: every sample lies in `randint`'s inclusive
range `[1_000_000_000, 9_999_999_999]`. -/
def oracle (i : Nat) : Nat := 1000000000 + i

/-- The constant oracle: `randint` may return the same sample repeatedly. -/
def constOracle : Nat → Nat := fun _ => 1000000000

/-- The token tree `I!` (the integer `0`). -/
def leafI0 : Node := .mk ['I', '!'] [] []

/-- The token tree `I"` (the integer `1`). -/
def leafI1 : Node := .mk ['I', '"'] [] []

/-- `B$ f x`. -/
def appT (f x : Node) : Node := .mk ['B', '$'] [f, x] []

/-- `L<v> body`. -/
def lamT (v : Tok) (body : Node) : Node := .mk ('L' :: v) [body] []

/-- `v<v>`. -/
def varT (v : Tok) : Node := .mk ('v' :: v) [] []

/-- `B+ I! I!`: a reducible argument (it steps to `I!`). -/
def addT : Node := .mk ['B', '+'] [leafI0, leafI0] []

/-- Every character `str(n)` produces is a decimal digit (codes 48-57). -/
lemma decReprAux_digits (f : Nat) : ∀ (n : Nat) (c : Char), c ∈ decReprAux f n →
    48 ≤ c.toNat ∧ c.toNat ≤ 57 := by
  induction f with
  | zero => intro n c hc; simp [decReprAux] at hc
  | succ f ih =>
    intro n c hc
    have hfin : ∀ m : Fin 10, 48 ≤ (Char.ofNat (48 + (m : Nat))).toNat ∧
        (Char.ofNat (48 + (m : Nat))).toNat ≤ 57 := by decide
    rw [decReprAux] at hc
    by_cases h : n < 10
    · rw [if_pos h] at hc
      simp only [List.mem_singleton] at hc
      subst hc
      exact hfin ⟨n, h⟩
    · rw [if_neg h] at hc
      rcases List.mem_append.mp hc with h1 | h1
      · exact ih _ _ h1
      · simp only [List.mem_singleton] at h1
        subst h1
        exact hfin ⟨n % 10, Nat.mod_lt _ (by norm_num)⟩

/-- A character outside the decimal digits is not in any `str(n)`. -/
lemma not_mem_decRepr (c : Char) (h : c.toNat < 48 ∨ 57 < c.toNat) (m : Nat) :
    c ∉ decRepr m := by
  intro hm
  have := decReprAux_digits (m + 1) m c hm
  omega

/-- A token whose second character is not a decimal digit differs from every
fresh name `'v' + str(m)`. -/
lemma cons_ne_decRepr (c : Char) (h : c.toNat < 48 ∨ 57 < c.toNat) (rest : Tok) (m : Nat) :
    ('v' :: c :: rest : Tok) ≠ 'v' :: decRepr m := by
  intro he
  have : (c :: rest : Tok) = decRepr m := by
    simpa using he
  exact not_mem_decRepr c h m (this ▸ List.mem_cons_self c rest)

/-! ## Truncating division (claim C7)

The repo computes `truncdiv(a, b)` as `math.trunc(a / b)` (`thre.py` lines
111-115, `again.py` lines 12-17): CPython evaluates `a / b` on ints as the
correctly-rounded IEEE-754 double of the exact quotient.  For `b = 1` that
conversion is `round53`; it is not the identity once `a` needs more than 53
significant bits, so the code does not return the exact truncated quotient
for operands of unbounded magnitude. -/

/-- C7: `math.trunc((2^62 + 1) / 1)` returns `2^62` (the double rounds the
dividend down), while truncation toward zero — which the claim, the repo's
docstring table and the `B/`/`B%` examples demand, and which `Int.tdiv`
renders exactly — returns `2^62 + 1`.  On small operands such as the
spec's `B/ U- I( I# = -3` and `B% U- I( I# = -1` the two agree, as the
machine runs confirm. -/
theorem c7_truncdiv_float_rounding :
    round53 (2 ^ 62 + 1) = 2 ^ 62 ∧
    (2 ^ 62 : Nat) ≠ 2 ^ 62 + 1 ∧
    truncdiv (2 ^ 62 + 1 : Int) 1 = 2 ^ 62 + 1 ∧
    truncdiv (-7) 2 = -3 ∧ truncmod (-7) 2 = -1 ∧
    (∀ a b : Int, truncmod a b = a - b * truncdiv a b) ∧
    stepAgainNode oracle 0 []
        (.mk ['B', '/'] [.mk ['U', '-'] [.mk ['I', '('] [] []] [], .mk ['I', '#'] [] []] [])
      = .stepped (fromint (-3)) 0 false ∧
    stepAgainNode oracle 0 []
        (.mk ['B', '%'] [.mk ['U', '-'] [.mk ['I', '('] [] []] [], .mk ['I', '#'] [] []] [])
      = .stepped (fromint (-1)) 0 false :=
  ⟨by decide, by decide, by decide, by decide, by decide,
   fun _ _ => rfl, rfl, rfl⟩

/-! ## Call-by-name application (claim C2) -/

/-- The token list of the spec's example
`B$ B$ L# L$ v# B. SB%,,/ S}Q/2,$_ IK`. -/
def helloTokens : List Tok :=
  [['B', '$'], ['B', '$'], ['L', '#'], ['L', '$'], ['v', '#'], ['B', '.'],
   ('S' :: "B%,,/".toList), ('S' :: "\x7dQ/2,$_".toList), ['I', 'K']]

/-- The parse tree of the example above. -/
def helloTerm : Node :=
  appT
    (appT (lamT ['#'] (lamT ['$'] (varT ['#'])))
      (.mk ['B', '.']
        [.mk ('S' :: "B%,,/".toList) [] [], .mk ('S' :: "\x7dQ/2,$_".toList) [] []] []))
    (.mk ['I', 'K'] [] [])

/-- C2 as stated: whenever the left operand of an application is already a
lambda (with a well-formed binder name that differs from the sampled fresh
name, so that `rename`'s asserts pass), the step that fires is the beta
substitution — in both cited `step` implementations. -/
def LazyApplyClaim : Prop :=
  ∀ (s : Nat → Nat) (i : Nat) (v : Tok) (b arg : Node),
    v ≠ [] → ('v' :: v : Tok) ≠ 'v' :: decRepr (s i) →
    (∃ n i2, stepAgainNode s i [] (appT (lamT v b) arg) = .stepped n i2 true) ∧
    (∃ n i2, stepThreNode s i [] (appT (lamT v b) arg) = .stepped n i2 true)

/-- C2 counterexample: `again.py`'s children-first walk reduces the
argument `B+ I! I!` to `I!` before any substitution happens — the step that
fires on `B$ (L! I!) (B+ I! I!)` is an argument reduction, not a beta. -/
theorem c2_again_forces_argument : ¬ LazyApplyClaim := by
  intro h
  obtain ⟨⟨n, i2, hn⟩, -⟩ :=
    h oracle 0 ['!'] leafI0 addT (by decide) (cons_ne_decRepr '!' (by decide) [] _)
  have hstep : stepAgainNode oracle 0 [] (appT (lamT ['!'] leafI0) addT)
      = .stepped (appT (lamT ['!'] leafI0) leafI0) 0 false := rfl
  rw [hstep] at hn
  simp at hn

/-- C2 amended: `thre.py`'s `step` substitutes the right operand
unevaluated — applying `L$ I!` to any argument whatsoever (including a
divergent one) immediately betas, storing the untouched argument in the
substitution dict — and the spec's example term indeed evaluates to
`Hello World!` under it; `again.py`'s `step`, by contrast, first reduces
every child, including the argument (see the counterexample). -/
theorem c2_thre_substitutes_unevaluated :
    (∀ (s : Nat → Nat) (i : Nat) (arg : Node),
      stepThreNode s i [] (appT (lamT ['$'] leafI0) arg)
        = .stepped (.mk ['I', '!'] [] [('v' :: decRepr (s i), arg)]) (i + 1) true) ∧
    parse helloTokens = some (helloTerm, []) ∧
    evalThre oracle 6 0 helloTerm = .done (.mk ('S' :: "B%,,/\x7dQ/2,$_".toList) [] []) ∧
    decodeStr "B%,,/\x7dQ/2,$_".toList = "Hello World!".toList := by
  refine ⟨?_, rfl, rfl, by decide⟩
  intro s i arg
  have hne : ¬ ((['$'] : Tok) = [] ∨ ('v' :: ['$'] : Tok) = 'v' :: decRepr (s i)) := by
    rintro (h | h)
    · cases h
    · exact cons_ne_decRepr '$' (by decide) [] (s i) h
  have hstep : stepThreNode s i [] (appT (lamT ['$'] leafI0) arg)
      = if (['$'] : Tok) = [] ∨ ('v' :: ['$'] : Tok) = 'v' :: decRepr (s i)
        then .err .assertErr
        else .stepped (.mk ['I', '!'] [] [('v' :: decRepr (s i), arg)]) (i + 1) true := rfl
  rw [hstep, if_neg hne]

/-! ## Strictness of the conditional (claim C6) -/

/-- `? c x y`. -/
def ifT (c x y : Node) : Node := .mk ['?'] [c, x, y] []

/-- The boolean literal node. -/
def boolT (b : Bool) : Node := .mk [if b then 'T' else 'F'] [] []

/-- C6 as stated: once the condition is a boolean literal, the step on the
conditional selects the matching branch, without evaluating inside either
branch — in the cited `step`. -/
def StrictCondClaim : Prop :=
  ∀ (s : Nat → Nat) (i : Nat) (b : Bool) (x y : Node),
    stepAgainNode s i [] (ifT (boolT b) x y) = .stepped (if b then x else y) i false

/-- C6 counterexample: `again.py`'s children-first walk evaluates inside
the not-taken else-branch of `? T I! (B+ I! I!)` even though the condition
is already `T`. -/
theorem c6_again_evaluates_both_branches : ¬ StrictCondClaim := by
  intro h
  have hn := h oracle 0 true leafI0 addT
  have hstep : stepAgainNode oracle 0 [] (ifT (boolT true) leafI0 addT)
      = .stepped (ifT (boolT true) leafI0 leafI0) 0 false := rfl
  rw [hstep] at hn
  simp only [if_pos] at hn
  injection hn with h1 h2 h3
  injection h1 with ht hrest
  cases ht

/-- C6 amended: `thre.py`'s conditional forces only the condition and then
replaces the node by exactly the selected branch (the other branch is
discarded unevaluated); `again.py` reduces all children — both branches
included — to normal form first, and only then its conditional rule selects
the branch dictated by the boolean. -/
theorem c6_thre_selects_branch :
    (∀ (s : Nat → Nat) (i : Nat) (b : Bool) (x y : Node),
      stepThreNode s i [] (ifT (boolT b) x y) = .stepped (if b then x else y) i false) ∧
    stepAgainNode oracle 0 [] (ifT (boolT true) leafI0 addT)
      = .stepped (ifT (boolT true) leafI0 leafI0) 0 false ∧
    stepAgainNode oracle 0 [] (ifT (boolT true) leafI0 leafI1) = .stepped leafI0 0 false ∧
    stepAgainNode oracle 0 [] (ifT (boolT false) leafI0 leafI1) = .stepped leafI1 0 false := by
  refine ⟨?_, rfl, rfl, rfl⟩
  intro s i b x y
  cases b
  · obtain ⟨yt, yc, ys⟩ := y
    rfl
  · obtain ⟨xt, xc, xs⟩ := x
    rfl

/-! ## Fresh-variable generation (claim C3) -/

/-- C3 as stated: for any admissible random oracle (all samples within
`randint`'s range), the fresh variable introduced by a beta step never
collides with a variable token already present in the term. -/
def FreshVarClaim : Prop :=
  ∀ (s : Nat → Nat), (∀ j, 1000000000 ≤ s j ∧ s j ≤ 9999999999) →
  ∀ (i : Nat) (v : Tok) (b arg : Node) (n : Node) (i2 : Nat),
    stepAgainNode s i [] (appT (lamT v b) arg) = .stepped n i2 true →
    ¬ ('v' :: decRepr (s i)) ∈ tokensOf (appT (lamT v b) arg)

/-- C3 counterexample: the sample `1000000000` is a legitimate `randint`
outcome, and applying `L! I!` to the parsed variable `v1000000000` then
generates the "fresh" name `v1000000000`, which is already in the term. -/
theorem c3_fresh_name_can_collide : ¬ FreshVarClaim := by
  intro h
  have hrange : ∀ j, 1000000000 ≤ constOracle j ∧ constOracle j ≤ 9999999999 := by
    intro j; exact ⟨le_refl _, by norm_num [constOracle]⟩
  have hstep : stepAgainNode constOracle 0 []
      (appT (lamT ['!'] leafI0) (varT (decRepr 1000000000)))
      = .stepped (.mk ['I', '!'] [] [('v' :: decRepr 1000000000, varT (decRepr 1000000000))]) 1 true := rfl
  have hmem := h constOracle hrange 0 ['!'] leafI0 (varT (decRepr 1000000000)) _ _ hstep
  exact hmem (by decide)

/-- C3 amended: the fresh binder introduced by a beta step is exactly
`'v'` followed by the decimal rendering of the raw random sample — nothing
excludes samples already used or names already present — and the constant
oracle, which returns the same admissible sample forever, shows two betas
can draw identical names.  (`alang.py`'s `new_var` instead numbers
generated names by a counter, and `lang_tree.py` samples from the even
smaller range `[100000, 999999]`.) -/
theorem c3_fresh_name_is_raw_sample :
    (∀ (s : Nat → Nat) (i : Nat) (v : Tok) (arg : Node),
      v ≠ [] → ('v' :: v : Tok) ≠ 'v' :: decRepr (s i) →
      stepAgainNode s i [[]] arg = .noStep →
      stepAgainNode s i [] (appT (lamT v leafI0) arg)
        = .stepped (.mk ['I', '!'] [] [('v' :: decRepr (s i), arg)]) (i + 1) true) ∧
    (∀ j, 1000000000 ≤ constOracle j ∧ constOracle j ≤ 9999999999) ∧
    constOracle 0 = constOracle 1 := by
  refine ⟨?_, fun j => ⟨le_refl _, by norm_num [constOracle]⟩, rfl⟩
  intro s i v arg hv hne harg
  have hcond : ¬ (v = [] ∨ ('v' :: v : Tok) = 'v' :: decRepr (s i)) := by
    rintro (h | h)
    · exact hv h
    · exact hne h
  have h1 : stepAgainNode s i [[]] (lamT v leafI0) = .noStep := rfl
  have hk : stepAgainKids s i [[]] [lamT v leafI0, arg] = .noStep := by
    simp only [stepAgainKids, h1, harg]
  have hun : stepAgainNode s i [] (appT (lamT v leafI0) arg)
      = match stepAgainKids s i [[]] [lamT v leafI0, arg] with
        | .stepped ch2 i2 b => .stepped (.mk ['B', '$'] ch2 []) i2 b
        | .err e => .err e
        | .noStep => stepAgainRules s i [] ['B', '$'] [lamT v leafI0, arg] [] := rfl
  have hrules : stepAgainRules s i [] ['B', '$'] [lamT v leafI0, arg] []
      = if v = [] ∨ ('v' :: v : Tok) = 'v' :: decRepr (s i)
        then .err .assertErr
        else .stepped (.mk ['I', '!'] [] [('v' :: decRepr (s i), arg)]) (i + 1) true := rfl
  rw [hun, hk, hrules, if_neg hcond]

/-- C3 witness for the amended theorem's hypotheses, at a concrete binder
and argument. -/
theorem c3_fresh_name_is_raw_sample_witness :
    stepAgainNode oracle 0 [] (appT (lamT ['!'] leafI0) leafI1)
      = .stepped (.mk ['I', '!'] [] [('v' :: decRepr 1000000000, leafI1)]) 1 true :=
  c3_fresh_name_is_raw_sample.1 oracle 0 ['!'] leafI1 (by decide)
    (cons_ne_decRepr '!' (by decide) [] _) rfl

/-! ## Substitution stops at a shadowing binder (claim C4) -/

/-- `rename(a, b)` on a lambda that binds `a`'s variable returns before
touching children or dict: the subtree is unchanged. -/
lemma rename_stops (v b : Tok) (ch : List Node) (sb : List (Tok × Node)) :
    rename ('v' :: v) b (.mk ('L' :: v) ch sb) = .mk ('L' :: v) ch sb := by
  have h : rename ('v' :: v) b (.mk ('L' :: v) ch sb)
      = if (v : Tok) = ('v' :: v : Tok).drop 1 then Node.mk ('L' :: v) ch sb
        else Node.mk ('L' :: v) (renameList ('v' :: v) b ch) (renameSubs ('v' :: v) b sb) := rfl
  rw [h]
  exact if_pos rfl

/-- C4: the repo substitutes by renaming the bound variable to a fresh name
and recording the argument in a substitution dict; `rename` (identical in
`again.py` lines 180-193 and `thre.py` lines 199-212) stops at a lambda
that binds the same variable, so, first, `rename` leaves such a lambda
entirely unchanged whenever its asserts pass, and second, beta-reducing
`B$ (L<v> (L<v> v<v>)) arg` hands back the inner shadowing lambda with its
binder and body untouched (no substitution crossed the binder). -/
theorem c4_substitution_stops_at_shadowing_binder :
    (∀ (v b : Tok) (ch : List Node) (sb : List (Tok × Node)),
      v ≠ [] → (∃ c rest, b = 'v' :: c :: rest) → ('v' :: v : Tok) ≠ b →
      rename ('v' :: v) b (.mk ('L' :: v) ch sb) = .mk ('L' :: v) ch sb) ∧
    (∀ (s : Nat → Nat) (i : Nat) (v : Tok) (arg : Node),
      v ≠ [] → ('v' :: v : Tok) ≠ 'v' :: decRepr (s i) →
      stepAgainNode s i [[]] arg = .noStep →
      stepAgainNode s i [] (appT (lamT v (lamT v (varT v))) arg)
        = .stepped (.mk ('L' :: v) [varT v] [('v' :: decRepr (s i), arg)]) (i + 1) true) := by
  constructor
  · intro v b ch sb _ _ _
    exact rename_stops v b ch sb
  · intro s i v arg hv hne harg
    have hcond : ¬ (v = [] ∨ ('v' :: v : Tok) = 'v' :: decRepr (s i)) := by
      rintro (h | h)
      · exact hv h
      · exact hne h
    have h1 : stepAgainNode s i [[]] (lamT v (lamT v (varT v))) = .noStep := rfl
    have hk : stepAgainKids s i [[]] [lamT v (lamT v (varT v)), arg] = .noStep := by
      simp only [stepAgainKids, h1, harg]
    have hun : stepAgainNode s i [] (appT (lamT v (lamT v (varT v))) arg)
        = match stepAgainKids s i [[]] [lamT v (lamT v (varT v)), arg] with
          | .stepped ch2 i2 b => .stepped (.mk ['B', '$'] ch2 []) i2 b
          | .err e => .err e
          | .noStep => stepAgainRules s i [] ['B', '$'] [lamT v (lamT v (varT v)), arg] [] := rfl
    have hrules : stepAgainRules s i [] ['B', '$'] [lamT v (lamT v (varT v)), arg] []
        = if v = [] ∨ ('v' :: v : Tok) = 'v' :: decRepr (s i)
          then .err .assertErr
          else
            .stepped
              (.mk (rename ('v' :: v) ('v' :: decRepr (s i)) (lamT v (varT v))).token
                (rename ('v' :: v) ('v' :: decRepr (s i)) (lamT v (varT v))).children
                (supdate (rename ('v' :: v) ('v' :: decRepr (s i)) (lamT v (varT v))).subs
                  [[], []] ('v' :: decRepr (s i)) arg))
              (i + 1) true := rfl
    have hren : rename ('v' :: v) ('v' :: decRepr (s i)) (lamT v (varT v)) = lamT v (varT v) :=
      rename_stops v ('v' :: decRepr (s i)) [varT v] []
    rw [hun, hk, hrules, if_neg hcond, hren]
    rfl

/-- C4 witness: the theorem's hypotheses hold at a concrete binder,
replacement name and argument. -/
theorem c4_substitution_stops_witness :
    rename ['v', '!'] ['v', '0'] (.mk ['L', '!'] [] []) = .mk ['L', '!'] [] [] ∧
    stepAgainNode oracle 0 [] (appT (lamT ['!'] (lamT ['!'] (varT ['!']))) leafI1)
      = .stepped (.mk ['L', '!'] [varT ['!']] [('v' :: decRepr 1000000000, leafI1)]) 1 true :=
  ⟨c4_substitution_stops_at_shadowing_binder.1 ['!'] ['v', '0'] [] [] (by decide)
      ⟨'0', [], rfl⟩ (by decide),
   c4_substitution_stops_at_shadowing_binder.2 oracle 0 ['!'] leafI1 (by decide)
      (cons_ne_decRepr '!' (by decide) [] _) rfl⟩

/-! ## Parsing of boolean tokens (claim C9) -/

/-- C9 as stated: a `T`/`F` token parses only with an empty body, and a
non-empty body makes the parse fail. -/
def BoolTokenClaim : Prop :=
  ∀ (tok : Tok) (rest : List Tok),
    (tok.head? = some 'T' ∨ tok.head? = some 'F') → tok.drop 1 ≠ [] →
    parse (tok :: rest) = none

/-- C9 counterexample: `parse` (`again.py` lines 268-283) returns a leaf
for any `T`-indicated token without looking at the body, so `Tx` parses
fine; there is no `MalformedTokenError` anywhere in the repository. -/
theorem c9_bool_token_body_unchecked : ¬ BoolTokenClaim := by
  intro h
  have hx := h ['T', 'x'] [] (Or.inl rfl) (by decide)
  rw [show parse [['T', 'x']] = some (.mk ['T', 'x'] [] [], []) from rfl] at hx
  cases hx

/-- C9 amended: `parse` accepts any token whose indicator is `T` or `F`,
regardless of body, producing a childless node holding the whole token. -/
theorem c9_bool_token_any_body (body : Tok) (rest : List Tok) :
    parse (('T' :: body) :: rest) = some (.mk ('T' :: body) [] [], rest) ∧
    parse (('F' :: body) :: rest) = some (.mk ('F' :: body) [] [], rest) :=
  ⟨rfl, rfl⟩

/-! ## Parse consumes exactly the term's tokens from the front (claim C10) -/

/-- C10: whenever `parse` succeeds, the input list is exactly the parsed
term's token sequence followed by the list the caller is left with (the
in-place `tokens.pop(0)` consumption). -/
theorem c10_parse_consumes_tokens_from_front :
    ∀ (f : Nat) (ts : List Tok) (n : Node) (rest : List Tok),
      parseF f ts = some (n, rest) → ts = tokensOf n ++ rest := by
  intro f
  induction f with
  | zero => intro ts n rest hp; cases hp
  | succ f ih =>
    intro ts n rest hp
    rcases ts with _ | ⟨tok, ts0⟩
    · cases hp
    rcases tok with _ | ⟨c, cb⟩
    · cases hp
    simp only [parseF] at hp
    split_ifs at hp with h1 h2 h3 h4
    · injection hp with h
      cases h
      simp [tokensOf, tokensOfList]
    · rcases hpf : parseF f ts0 with _ | ⟨n1, r1⟩ <;> rw [hpf] at hp <;> dsimp only at hp
      · cases hp
      · injection hp with h
        cases h
        have hr := ih _ _ _ hpf
        simp [tokensOf, tokensOfList, hr, List.append_assoc]
    · rcases hpf : parseF f ts0 with _ | ⟨n1, r1⟩ <;> rw [hpf] at hp <;> dsimp only at hp
      · cases hp
      rcases hpf2 : parseF f r1 with _ | ⟨n2, r2⟩ <;> rw [hpf2] at hp <;> dsimp only at hp
      · cases hp
      injection hp with h
      cases h
      have hr1 := ih _ _ _ hpf
      have hr2 := ih _ _ _ hpf2
      simp [tokensOf, tokensOfList, hr1, hr2, List.append_assoc]
    · rcases hpf : parseF f ts0 with _ | ⟨n1, r1⟩ <;> rw [hpf] at hp <;> dsimp only at hp
      · cases hp
      rcases hpf2 : parseF f r1 with _ | ⟨n2, r2⟩ <;> rw [hpf2] at hp <;> dsimp only at hp
      · cases hp
      rcases hpf3 : parseF f r2 with _ | ⟨n3, r3⟩ <;> rw [hpf3] at hp <;> dsimp only at hp
      · cases hp
      injection hp with h
      cases h
      have hr1 := ih _ _ _ hpf
      have hr2 := ih _ _ _ hpf2
      have hr3 := ih _ _ _ hpf3
      simp [tokensOf, tokensOfList, hr1, hr2, hr3, List.append_assoc]

/-- C10 witness: a concrete parse of `B+ I! I"` followed by a leftover
token. -/
theorem c10_parse_consumes_witness :
    parseF 5 [['B', '+'], ['I', '!'], ['I', '"'], ['S', 'x']]
      = some (.mk ['B', '+'] [leafI0, leafI1] [], [['S', 'x']]) ∧
    [['B', '+'], ['I', '!'], ['I', '"'], ['S', 'x']]
      = tokensOf (.mk ['B', '+'] [leafI0, leafI1] []) ++ [['S', 'x']] :=
  ⟨rfl, c10_parse_consumes_tokens_from_front 5 _ _ _ rfl⟩

/-! ## No beta-reduction budget in `evaluate` (claim C1)

`again.py`'s `evaluate` is `while step(node): pass; return node`: it keeps
no counter and raises nothing of its own.  To settle the claim, a family of
terms is run whose beta count is known in closed form: `iterId k` nests `k`
applications of the identity `L! v!`, and its full reduction performs
exactly `k` beta reductions (each application also needs one variable-lookup
step) before returning `I!`. -/

/-- The identity lambda `L! v!`. -/
def lamIdT : Node := lamT ['!'] (varT ['!'])

/-- `iterId k`: `k` nested applications of the identity to `I!`. -/
def iterId : Nat → Node
  | 0 => leafI0
  | k + 1 => appT lamIdT (iterId k)

/-- An ancestor chain whose substitution dicts are all empty (every state
reached from a freshly parsed `iterId k` has this property at every
position above the redex). -/
def EnvClean (env : Env) : Prop := ∀ m ∈ env, m = []

lemma EnvClean.consNil {env : Env} (h : EnvClean env) : EnvClean ([] :: env) := by
  intro m hm
  rcases List.mem_cons.mp hm with h1 | h1
  · exact h1
  · exact h m h1

/-- `lookup` finds nothing along a clean chain. -/
lemma envLookup_clean : ∀ (env : Env), EnvClean env → ∀ k, envLookup env k = none := by
  intro env
  induction env with
  | nil => intro _ _; rfl
  | cons d rest ih =>
    intro h k
    have hd : d = [] := h d (List.mem_cons_self d rest)
    subst hd
    simp only [envLookup, dlookup]
    exact ih (fun m hm => h m (List.mem_cons_of_mem _ hm)) k

/-- `v!` has no binding along a clean chain: no step. -/
lemma stepAgain_varBang_clean (s : Nat → Nat) (i : Nat) (env : Env) (hcl : EnvClean env) :
    stepAgainNode s i env (varT ['!']) = .noStep := by
  have hun : stepAgainNode s i env (varT ['!']) =
      match envLookup ([] :: env) ['v', '!'] with
      | some v => .stepped (.mk v.token v.children v.subs) i false
      | none => .noStep := rfl
  rw [hun, envLookup_clean ([] :: env) hcl.consNil ['v', '!']]

/-- The identity lambda is in normal form under a clean chain. -/
lemma stepAgain_lamId_clean (s : Nat → Nat) (i : Nat) (env : Env) (hcl : EnvClean env) :
    stepAgainNode s i env lamIdT = .noStep := by
  have hv := stepAgain_varBang_clean s i ([] :: env) hcl.consNil
  have hun : stepAgainNode s i env lamIdT =
      match stepAgainKids s i ([] :: env) [varT ['!']] with
      | .stepped ch2 i2 b => .stepped (.mk ['L', '!'] ch2 []) i2 b
      | .err e => .err e
      | .noStep => stepAgainRules s i env ['L', '!'] [varT ['!']] [] := rfl
  have hk : stepAgainKids s i ([] :: env) [varT ['!']] = .noStep := by
    simp only [stepAgainKids, hv]
  rw [hun, hk]
  rfl

/-- Lifting a step of the argument through `B$ (L! v!) _` (children
first: the identity itself never steps). -/
lemma stepAgain_lift_app (s : Nat → Nat) (i : Nat) (env : Env) (hcl : EnvClean env)
    (X X2 : Node) (i2 : Nat) (b : Bool)
    (hX : stepAgainNode s i ([] :: env) X = .stepped X2 i2 b) :
    stepAgainNode s i env (appT lamIdT X) = .stepped (appT lamIdT X2) i2 b := by
  have hlam := stepAgain_lamId_clean s i ([] :: env) hcl.consNil
  have hun : stepAgainNode s i env (appT lamIdT X) =
      match stepAgainKids s i ([] :: env) [lamIdT, X] with
      | .stepped ch2 i2 b => .stepped (.mk ['B', '$'] ch2 []) i2 b
      | .err e => .err e
      | .noStep => stepAgainRules s i env ['B', '$'] [lamIdT, X] [] := rfl
  have hk : stepAgainKids s i ([] :: env) [lamIdT, X] = .stepped [lamIdT, X2] i2 b := by
    simp only [stepAgainKids, hlam, hX]
  rw [hun, hk]
  rfl

/-- The beta step on `B$ (L! v!) I!`: renames the bound variable to the
fresh `'v' + str(sample)` and stores the argument in the dict. -/
lemma stepAgain_redex (s : Nat → Nat) (i : Nat) (env : Env) (hcl : EnvClean env) :
    stepAgainNode s i env (appT lamIdT leafI0)
      = .stepped (.mk ('v' :: decRepr (s i)) [] [('v' :: decRepr (s i), leafI0)]) (i + 1) true := by
  have hlam := stepAgain_lamId_clean s i ([] :: env) hcl.consNil
  have hI : stepAgainNode s i ([] :: env) leafI0 = .noStep := rfl
  have hk : stepAgainKids s i ([] :: env) [lamIdT, leafI0] = .noStep := by
    simp only [stepAgainKids, hlam, hI]
  have hun : stepAgainNode s i env (appT lamIdT leafI0) =
      match stepAgainKids s i ([] :: env) [lamIdT, leafI0] with
      | .stepped ch2 i2 b => .stepped (.mk ['B', '$'] ch2 []) i2 b
      | .err e => .err e
      | .noStep => stepAgainRules s i env ['B', '$'] [lamIdT, leafI0] [] := rfl
  have hrules : stepAgainRules s i env ['B', '$'] [lamIdT, leafI0] []
      = if (['!'] : Tok) = [] ∨ ('v' :: ['!'] : Tok) = 'v' :: decRepr (s i)
        then .err .assertErr
        else .stepped (.mk ('v' :: decRepr (s i)) [] [('v' :: decRepr (s i), leafI0)]) (i + 1) true := rfl
  have hcond : ¬ ((['!'] : Tok) = [] ∨ ('v' :: ['!'] : Tok) = 'v' :: decRepr (s i)) := by
    rintro (h | h)
    · cases h
    · exact cons_ne_decRepr '!' (by decide) [] (s i) h
  rw [hun, hk]
  dsimp only
  rw [hrules, if_neg hcond]

/-- The variable node left by the beta resolves to the stored `I!`. -/
lemma stepAgain_varNode (s : Nat → Nat) (i : Nat) (env : Env) (d : Tok) :
    stepAgainNode s i env (.mk ('v' :: d) [] [('v' :: d, leafI0)]) = .stepped leafI0 i false := by
  have hdl : dlookup [('v' :: d, leafI0)] ('v' :: d) = some leafI0 := by simp [dlookup]
  have hlk : envLookup ([('v' :: d, leafI0)] :: env) ('v' :: d) = some leafI0 := by
    simp only [envLookup, hdl]
  have hun : stepAgainNode s i env (.mk ('v' :: d) [] [('v' :: d, leafI0)]) =
      match envLookup ([('v' :: d, leafI0)] :: env) ('v' :: d) with
      | some v => .stepped (.mk v.token v.children v.subs) i false
      | none => .noStep := rfl
  rw [hun, hlk]
  rfl

/-- Iterate `step` exactly `n` times from a given oracle index and chain,
returning the final term, oracle index and beta count (or `none` if the
term normalizes, errors or the given chain cannot supply `n` steps). -/
def iterStep (s : Nat → Nat) : Nat → Nat → Env → Node → Option (Node × Nat × Nat)
  | 0, i, _, t => some (t, i, 0)
  | n + 1, i, env, t =>
    match stepAgainNode s i env t with
    | .stepped t2 i2 b =>
      match iterStep s n i2 env t2 with
      | some (t3, i3, B) => some (t3, i3, B + if b then 1 else 0)
      | none => none
    | _ => none

lemma iterStep_lift_app : ∀ (n : Nat) (s : Nat → Nat) (i : Nat) (env : Env), EnvClean env →
    ∀ (X X2 : Node) (i2 B : Nat), iterStep s n i ([] :: env) X = some (X2, i2, B) →
    iterStep s n i env (appT lamIdT X) = some (appT lamIdT X2, i2, B) := by
  intro n
  induction n with
  | zero =>
    intro s i env hcl X X2 i2 B h
    cases h
    rfl
  | succ n ih =>
    intro s i env hcl X X2 i2 B h
    rcases hs : stepAgainNode s i ([] :: env) X with ⟨X', i', b⟩ | _ | e
    · simp only [iterStep, hs] at h
      rcases hit : iterStep s n i' ([] :: env) X' with _ | ⟨X3, i3, B0⟩
      · rw [hit] at h; cases h
      · rw [hit] at h
        dsimp only at h
        cases h
        have hlift := stepAgain_lift_app s i env hcl X X' i' b hs
        have hrec := ih s i' env hcl X' X2 i2 B0 hit
        simp only [iterStep, hlift, hrec]
    · simp only [iterStep, hs] at h
      cases h
    · simp only [iterStep, hs] at h
      cases h

lemma iterStep_add : ∀ (m n : Nat) (s : Nat → Nat) (i : Nat) (env : Env) (t : Node),
    iterStep s (m + n) i env t =
      match iterStep s m i env t with
      | some (t2, i2, B) =>
        match iterStep s n i2 env t2 with
        | some (t3, i3, B2) => some (t3, i3, B2 + B)
        | none => none
      | none => none := by
  intro m
  induction m with
  | zero =>
    intro n s i env t
    simp only [Nat.zero_add, iterStep]
    rcases iterStep s n i env t with _ | ⟨t3, i3, B2⟩ <;> rfl
  | succ m ih =>
    intro n s i env t
    have hadd : m + 1 + n = (m + n) + 1 := by omega
    rw [hadd]
    rcases hs : stepAgainNode s i env t with ⟨t', i', b⟩ | _ | e
    · simp only [iterStep, hs, ih n s i' env t']
      rcases iterStep s m i' env t' with _ | ⟨t2, i2, B⟩
      · rfl
      · dsimp only
        rcases iterStep s n i2 env t2 with _ | ⟨t3, i3, B2⟩
        · rfl
        · dsimp only
          rw [Nat.add_assoc]
    · simp only [iterStep, hs]
    · simp only [iterStep, hs]

/-- The full run of `iterId k`: exactly `2 * k` steps of which `k` are
betas, ending at `I!`. -/
lemma iterStep_iterId : ∀ (k : Nat) (s : Nat → Nat) (i : Nat) (env : Env), EnvClean env →
    iterStep s (2 * k) i env (iterId k) = some (leafI0, i + k, k) := by
  intro k
  induction k with
  | zero => intro s i env _; rfl
  | succ k ih =>
    intro s i env hcl
    have h2k : 2 * (k + 1) = 2 * k + 2 := by ring
    rw [h2k, iterStep_add]
    have hin := iterStep_lift_app (2 * k) s i env hcl (iterId k) leafI0 (i + k) k
      (ih s i ([] :: env) hcl.consNil)
    rw [show iterId (k + 1) = appT lamIdT (iterId k) from rfl, hin]
    dsimp only
    have hfin : iterStep s 2 (i + k) env (appT lamIdT leafI0)
        = some (leafI0, i + k + 1, 1) := by
      have h1 := stepAgain_redex s (i + k) env hcl
      have h2 := stepAgain_varNode s (i + k + 1) env (decRepr (s (i + k)))
      simp only [iterStep, h1, h2]
      norm_num
    rw [hfin]
    dsimp only
    have : 1 + k = k + 1 := by omega
    rw [this, show i + k + 1 = i + (k + 1) from by omega]

/-- Hooking a finished `iterStep` run into `evaluate`. -/
lemma evalAgain_of_iter : ∀ (n : Nat) (s : Nat → Nat) (i : Nat) (t t2 : Node) (i2 B : Nat),
    iterStep s n i [] t = some (t2, i2, B) →
    stepAgainNode s i2 [] t2 = .noStep →
    evalAgain s (n + 1) i t = (.done t2, B) := by
  intro n
  induction n with
  | zero =>
    intro s i t t2 i2 B h hns
    cases h
    simp only [evalAgain, hns]
  | succ n ih =>
    intro s i t t2 i2 B h hns
    rcases hs : stepAgainNode s i [] t with ⟨t', i', b⟩ | _ | e
    · simp only [iterStep, hs] at h
      rcases hit : iterStep s n i' [] t' with _ | ⟨t3, i3, B0⟩
      · rw [hit] at h; cases h
      · rw [hit] at h
        dsimp only at h
        cases h
        have hrec := ih s i' t' t2 i2 B0 hit hns
        have hun : evalAgain s (n + 1 + 1) i t =
            match stepAgainNode s i [] t with
            | .noStep => (.done t, 0)
            | .err e => (.failed e, 0)
            | .stepped u j bu =>
              ((evalAgain s (n + 1) j u).1, (evalAgain s (n + 1) j u).2 + if bu then 1 else 0) := rfl
        rw [hun, hs]
        dsimp only
        rw [hrec]
    · simp only [iterStep, hs] at h
      cases h
    · simp only [iterStep, hs] at h
      cases h

/-- C1 as stated: any `evaluate` run that performed more than 10,000,000
beta reductions ends in the distinct `StepLimitExceeded` error. -/
def StepLimitClaim : Prop :=
  ∀ (s : Nat → Nat) (fuel i : Nat) (t : Node) (r : EvalRes) (B : Nat),
    evalAgain s fuel i t = (r, B) → 10000000 < B → r = .failed .stepLimitExceeded

/-- C1 counterexample: `iterId 10000001` performs 10,000,001 beta
reductions and `evaluate` simply returns its normal form `I!` — there is no
counter and no `StepLimitExceeded` anywhere in the code. -/
theorem c1_no_step_limit_error : ¬ StepLimitClaim := by
  intro h
  have hiter := iterStep_iterId 10000001 oracle 0 [] (fun m hm => by cases hm)
  have hrun : evalAgain oracle (2 * 10000001 + 1) 0 (iterId 10000001)
      = (.done leafI0, 10000001) :=
    evalAgain_of_iter (2 * 10000001) oracle 0 (iterId 10000001) leafI0 (0 + 10000001)
      10000001 hiter rfl
  have hfail := h oracle (2 * 10000001 + 1) 0 (iterId 10000001) (.done leafI0) 10000001
    hrun (by norm_num)
  cases hfail

/-- C1 amended: `evaluate` iterates `step` with no budget: the run of
`iterId 10000001` performs 10,000,001 betas and still returns the normal
form `I!`; and only `B$` applications count as betas — in the run of
`B$ (L! v!) (B+ I! I!)` the built-in addition step and the variable lookup
contribute nothing, the count is exactly 1. -/
theorem c1_evaluate_never_aborts :
    evalAgain oracle (2 * 10000001 + 1) 0 (iterId 10000001) = (.done leafI0, 10000001) ∧
    evalAgain oracle 4 0 (appT lamIdT addT) = (.done leafI0, 1) := by
  constructor
  · have hiter := iterStep_iterId 10000001 oracle 0 [] (fun m hm => by cases hm)
    exact evalAgain_of_iter (2 * 10000001) oracle 0 (iterId 10000001) leafI0 (0 + 10000001)
      10000001 hiter rfl
  · rfl

/-! ## `Node.replace` mutates in place (claim C5) -/

lemma getCell_setCell_self (st : Store) (i : Nat) (c c0 : Cell)
    (h : getCell st i = some c0) : getCell (setCell st i c) i = some c := by
  induction st with
  | nil => cases h
  | cons hd rest ih =>
    obtain ⟨j, c2⟩ := hd
    by_cases hj : j = i
    · simp [getCell, setCell, hj]
    · simp only [getCell, setCell, hj, if_false] at h ⊢
      exact ih h

lemma getCell_setCell_ne (st : Store) (i j : Nat) (c : Cell) (h : j ≠ i) :
    getCell (setCell st j c) i = getCell st i := by
  induction st with
  | nil => rfl
  | cons hd rest ih =>
    obtain ⟨k, c2⟩ := hd
    by_cases hk : k = j
    · subst hk
      simp [getCell, setCell, h]
    · by_cases hki : k = i <;> simp [getCell, setCell, hk, hki, ih, Ne.symm h]

lemma setParent_eq (st : Store) (i p : Nat) (c : Cell) (h : getCell st i = some c) :
    setParent st i p = setCell st i { c with parent := some p } := by
  unfold setParent
  rw [h]

lemma getCell_setParent_ne (st : Store) (i j p : Nat) (h : j ≠ i) :
    getCell (setParent st j p) i = getCell st i := by
  unfold setParent
  cases getCell st j with
  | none => rfl
  | some c => exact getCell_setCell_ne st i j _ h

lemma getCell_foldl_setParent (l : List Nat) (st : Store) (i pid : Nat) (h : i ∉ l) :
    getCell (l.foldl (fun acc cid => setParent acc cid pid) st) i = getCell st i := by
  induction l generalizing st with
  | nil => rfl
  | cons hd tl ih =>
    simp only [List.mem_cons, not_or] at h
    simp only [List.foldl_cons]
    rw [ih _ h.2, getCell_setParent_ne st i hd pid (fun he => h.1 he.symm)]

/-- C5 as stated: a `Node.replace` leaves the object the caller holds (the
original redex position) unchanged — reduction builds new nodes rather than
mutating. -/
def ReplaceKeepsOriginalClaim : Prop :=
  ∀ (st : Store) (i j : Nat) (p : Option Nat) (st2 : Store),
    replaceStore st i j p = some st2 → getCell st2 i = getCell st i

/-- A two-object heap: object 1 is the variable node `v!`, object 2 the
value `I!` a step wants to put in its place. -/
def exStore : Store :=
  [(1, ⟨['v', '!'], [], [], none⟩), (2, ⟨['I', '!'], [], [], none⟩)]

/-- C5 counterexample: `replace` overwrites object 1's fields in place —
after the call the very same object holds `I!`'s content, not `v!`'s. -/
theorem c5_replace_overwrites_original : ¬ ReplaceKeepsOriginalClaim := by
  intro h
  have h2 := h exStore 1 2 none
    [(1, ⟨['I', '!'], [], [], none⟩), (2, ⟨['I', '!'], [], [], none⟩)] rfl
  exact absurd h2 (by decide)

/-- C5 amended: `Node.replace(self, node, parent)` mutates `self` in place:
afterwards the object at `self`'s id carries `node`'s token, children list
and substitution dict (sharing them with `node`), keeps its own parent when
no new one is passed, and the tree is rewritten rather than rebuilt. -/
theorem c5_replace_mutates_in_place
    (st : Store) (i j : Nat) (p : Option Nat) (st2 : Store) (ci cj : Cell)
    (hrep : replaceStore st i j p = some st2)
    (hgi : getCell st i = some ci) (hgj : getCell st j = some cj)
    (hnc : i ∉ cj.children) :
    ∃ c2, getCell st2 i = some c2 ∧ c2.token = cj.token ∧ c2.children = cj.children ∧
      c2.subs = cj.subs ∧ (p = none → c2.parent = ci.parent) := by
  unfold replaceStore at hrep
  rw [hgi, hgj] at hrep
  have hbase : getCell
      (cj.children.foldl (fun acc cid => setParent acc cid i)
        (setCell st i ⟨cj.token, cj.children, cj.subs, ci.parent⟩)) i
      = some ⟨cj.token, cj.children, cj.subs, ci.parent⟩ := by
    rw [getCell_foldl_setParent _ _ _ _ hnc]
    exact getCell_setCell_self st i _ ci hgi
  cases p with
  | none =>
    simp only [Option.some_inj] at hrep
    subst hrep
    exact ⟨_, hbase, rfl, rfl, rfl, fun _ => rfl⟩
  | some q =>
    simp only [Option.some_inj] at hrep
    subst hrep
    refine ⟨⟨cj.token, cj.children, cj.subs, some q⟩, ?_, rfl, rfl, rfl, fun habs => by cases habs⟩
    rw [setParent_eq _ _ _ _ hbase]
    exact getCell_setCell_self _ i _ _ hbase

/-- C5 witness: the amended theorem applied to the concrete two-object
heap. -/
theorem c5_replace_mutates_witness :
    ∃ c2, getCell [(1, (⟨['I', '!'], [], [], none⟩ : Cell)),
        (2, ⟨['I', '!'], [], [], none⟩)] 1 = some c2 ∧
      c2.token = ['I', '!'] ∧ c2.children = [] ∧ c2.subs = [] ∧
      ((none : Option Nat) = none → c2.parent = none) :=
  c5_replace_mutates_in_place exStore 1 2 none _ ⟨['v', '!'], [], [], none⟩
    ⟨['I', '!'], [], [], none⟩ rfl rfl rfl (by decide)

/-! ## Base-94 integer codec (claim C8) -/

lemma b942cGo_foldl (fuel : Nat) : ∀ v : Nat, v ≤ fuel → ∀ a : Int,
    List.foldl (fun value c => value * 94 + ((c.toNat : Int) - 33)) a (b942cGo fuel v)
      = a * 94 ^ (b942cGo fuel v).length + v := by
  induction fuel with
  | zero =>
    intro v hv a
    interval_cases v
    simp [b942cGo]
  | succ f ih =>
    intro v hv a
    by_cases h0 : v = 0
    · subst h0; simp [b942cGo]
    · have hrec : v / 94 ≤ f := by
        have : v / 94 < v := Nat.div_lt_self (Nat.pos_of_ne_zero h0) (by norm_num)
        omega
      have h94 : v % 94 < 94 := Nat.mod_lt _ (by norm_num)
      have hchar : ∀ r : Fin 94, ((Char.ofNat (r + 33)).toNat : Int) = r + 33 := by decide
      have hc : ((Char.ofNat (v % 94 + 33)).toNat : Int) = (v % 94 : Nat) + 33 := by
        exact_mod_cast hchar ⟨v % 94, h94⟩
      have hdm : (94 : Int) * ((v / 94 : Nat) : Int) + ((v % 94 : Nat) : Int) = v := by
        exact_mod_cast Nat.div_add_mod v 94
      rw [b942cGo, if_neg h0, List.foldl_append, ih (v / 94) hrec a]
      simp only [List.foldl_cons, List.foldl_nil, List.length_append, List.length_cons,
        List.length_nil, hc]
      calc (a * 94 ^ (b942cGo f (v / 94)).length + ((v / 94 : Nat) : Int)) * 94 +
            (((v % 94 : Nat) : Int) + 33 - 33)
          = a * (94 ^ (b942cGo f (v / 94)).length * 94) +
            (94 * ((v / 94 : Nat) : Int) + ((v % 94 : Nat) : Int)) := by ring
        _ = a * 94 ^ ((b942cGo f (v / 94)).length + 0 + 1) + (v : Int) := by
            rw [← pow_succ, hdm]

lemma c2b94_b942cGo (v : Nat) : c2b94 (b942cGo v v) = v := by
  have := b942cGo_foldl v v le_rfl 0
  simpa [c2b94] using this

/-- The claim of C8, over both cited implementations of `encode_int`
(`b942c` in `again.py` lines 28-36 and in `tworee.py` lines 118-123):
decode/encode round-trips every non-negative integer, and the encoding of
`0` is the single zero digit `'!'`, never the empty body. -/
def IntCodecClaim : Prop :=
  (∀ n : Nat, c2b94 (b942c n) = (n : Int) ∧ c2b94 (b942cTwo n) = (n : Int)) ∧
  (b942c 0 = ['!'] ∧ b942cTwo 0 = ['!']) ∧
  (∀ n : Nat, b942c n ≠ [] ∧ b942cTwo n ≠ [])

/-- C8 counterexample: `tworee.py`'s `b942c` has no zero case, so it
encodes `0` as the empty body, not as `'!'`. -/
theorem c8_tworee_zero_counterexample : ¬ IntCodecClaim := by
  intro h
  have h2 := h.2.1.2
  have : b942cTwo 0 = [] := rfl
  rw [this] at h2
  cases h2

/-- C8 amended: `again.py`'s `b942c` round-trips every `n`, encodes `0` as
the single digit `'!'` and never returns an empty body; `tworee.py`'s
`b942c` also round-trips every `n` (the empty body decodes to `0`), but it
returns the empty body for `0`. -/
theorem c8_roundtrip_amended (n : Nat) :
    (c2b94 (b942c n) = (n : Int) ∧ b942c 0 = ['!'] ∧ b942c n ≠ []) ∧
    (c2b94 (b942cTwo n) = (n : Int) ∧ b942cTwo 0 = []) := by
  refine ⟨⟨?_, rfl, ?_⟩, ?_, rfl⟩
  · by_cases h0 : n = 0
    · subst h0; rfl
    · rw [b942c, if_neg h0]
      exact c2b94_b942cGo n
  · by_cases h0 : n = 0
    · subst h0; simp [b942c]
    · rw [b942c, if_neg h0]
      obtain ⟨f, rfl⟩ : ∃ f, n = f + 1 := ⟨n - 1, by omega⟩
      rw [b942cGo, if_neg h0]
      simp
  · exact c2b94_b942cGo n

end ICFP
